import Mathlib

/-!
# Verification of patrick-db core components

Shallow embedding of the patrick-db repository (Rust) in Lean 4:

* `src/storageengine/src/operations.rs` — the tuple operations layer over an
  append-only file (`DbOperationsImpl`): `insert`, `read_with_offset`,
  `read_all`, `update_with_offset`, `delete_with_offset`.
* `src/indexengine/src/{hashmap,btree,no_index,lsm_tree}.rs` — the index
  strategies.
* `src/bloomfilter/src/lib.rs` — the counting Bloom filter.
* `src/server/src/server.rs` — the key-value service `create` handler and the
  replication queue.
* `src/server/src/router.rs` — partition selection.

Modelling conventions:

* Machine integers (`u64`, `usize`) are modelled as `Nat`.  The sentinel
  `u64::MAX` is the constant `SENT`.  Transaction ids are bounded by the
  number of operations performed, far below `2^64`, so wrap-around is
  unreachable and is not modelled.
* The backing file is modelled at tuple granularity as a `List Row` together
  with explicit byte-offset arithmetic.  This is faithful because the source
  serializes rows with bincode 1.x default options (fixed-width little-endian
  integers): every `u64` header field occupies exactly 8 bytes and a
  `Vec<u8>` payload occupies an 8-byte length prefix plus its bytes, so the
  encoded size of a row is `7*8 + 8 + data.len() = 64 + data.len()` bytes and
  an in-place overwrite of a row whose header fields changed (but whose
  payload did not) occupies exactly the same byte range.
* `read_with_offset` reads exactly `size` bytes at `offset` (`read_exact`
  fails on a short read) and bincode-deserializes them, ignoring trailing
  bytes.  In the tuple-granularity model a read succeeds when `offset` is a
  tuple boundary, `size` covers at least that tuple, and the range lies
  inside the file; reads starting inside a tuple are modelled as failing.
* I/O errors of the filesystem itself are not modelled (appends and in-place
  writes succeed); decode failures and range failures are modelled exactly.
-/

/-- Models `u64::MAX`, the sentinel `NONE_SENTINEL` of `operations.rs` marking a
live tuple (`xmax`/`cmax` not yet set by a delete or update). -/
def SENT : Nat := 18446744073709551615

/-- The tuple header of `operations.rs` (`struct Header`): seven `u64`
fields, bincode-encoded as 56 bytes. -/
structure Header where
  xmin : Nat
  xmax : Nat
  tuple_length : Nat
  table_oid : Nat
  ctid : Nat
  cmin : Nat
  cmax : Nat
deriving DecidableEq, Repr

/-- A stored tuple (`struct Row`): header plus opaque payload bytes. -/
structure Row where
  header : Header
  data : List Nat
deriving DecidableEq, Repr

/-- A byte range in the backing file (`struct OffsetSize`). -/
structure OffsetSize where
  offset : Nat
  size : Nat
deriving DecidableEq, Repr

/-- Encoded byte size of a row under bincode default options:
56 header bytes, an 8-byte payload length prefix and the payload bytes. -/
def encSize (r : Row) : Nat := 64 + r.data.length

/-- Total byte length of the backing file. -/
def fileSize (file : List Row) : Nat := (file.map encSize).sum

/-- Walk the file from byte offset 0.  Returns the index and content of the
tuple starting exactly at byte offset `off`; `none` if `off` is not a tuple
boundary (a read starting there would deserialize garbage, which the
tuple-granularity model represents as failure). -/
def locate : List Row → Nat → Option (Nat × Row)
  | [], _ => none
  | r :: rs, off =>
    if off = 0 then some (0, r)
    else if off < encSize r then none
    else (locate rs (off - encSize r)).map (fun p => (p.1 + 1, p.2))

/-- The header written by `DbOperationsImpl::insert`: `xmin = cmin = txid`,
`xmax = cmax = NONE_SENTINEL`, `tuple_length` = encoded header size plus
encoded payload size. -/
def mkHeader (txid : Nat) (len : Nat) : Header :=
  { xmin := txid, xmax := SENT, tuple_length := 64 + len,
    table_oid := 0, ctid := 0, cmin := txid, cmax := SENT }

/-- The row appended by `DbOperationsImpl::insert`. -/
def mkRow (txid : Nat) (data : List Nat) : Row :=
  { header := mkHeader txid data.length, data := data }

/-- Models `DbOperationsImpl::insert` in the steady state of a handler
session: build the header, append the encoded row (`O_APPEND` writes always
land at end of file), and return the range just written with `offset` = file
length before the append.  The source obtains that offset from
`BufWriter::stream_position`, which equals the file length only when the
writer cursor is at end of file — true for a handler over an initially
empty file and re-established by every completed append, but NOT for the
very first append after opening an existing non-empty file, where
`stream_position` is still 0.  `dbInsertS` below models the cursor
explicitly; `dbInsert` is the cursor-at-end special case, which covers every
append of the sessions used by the index-strategy claims (they build their
files inside one session starting from an empty file, and bootstrap itself
performs no append). -/
def dbInsert (file : List Row) (data : List Nat) (txid : Nat) :
    List Row × OffsetSize :=
  (file ++ [mkRow txid data],
   { offset := fileSize file, size := 64 + data.length })

/-- Models `DbOperationsImpl::read_with_offset`: positional read of `size` bytes at
`offset`, then deserialize one row.  Succeeds when `offset` is a tuple
boundary, the read stays inside the file (`read_exact`) and the tuple is
fully covered (deserialization; trailing bytes are ignored). -/
def dbRead (file : List Row) (os : OffsetSize) : Option Row :=
  match locate file os.offset with
  | none => none
  | some p =>
    if encSize p.2 ≤ os.size ∧ os.offset + os.size ≤ fileSize file then
      some p.2
    else none

/-- Overwrite only the `xmax` header field, as `update_with_offset` and
`delete_with_offset` both do (`row.header.xmax = transaction_id`); note that
neither touches `cmax`. -/
def setXmax (r : Row) (txid : Nat) : Row :=
  { r with header := { r.header with xmax := txid } }

/-- Models `DbOperationsImpl::delete_with_offset`: read the row at the range, set
its `xmax` to the transaction id, and overwrite it in place.  The rewritten
row has the same payload, hence the same encoded size, so the overwrite
replaces exactly the original byte range. -/
def dbDelete (file : List Row) (os : OffsetSize) (txid : Nat) :
    Option (List Row) :=
  match locate file os.offset with
  | none => none
  | some p =>
    if encSize p.2 ≤ os.size ∧ os.offset + os.size ≤ fileSize file then
      some (file.set p.1 (setXmax p.2 txid))
    else none

/-- Models `DbOperationsImpl::update_with_offset`: read the old row, set its `xmax`,
overwrite it in place, then append a fresh live row via `insert` and return
the new range. -/
def dbUpdate (file : List Row) (os : OffsetSize) (data : List Nat)
    (txid : Nat) : Option (List Row × OffsetSize) :=
  match locate file os.offset with
  | none => none
  | some p =>
    if encSize p.2 ≤ os.size ∧ os.offset + os.size ≤ fileSize file then
      some (dbInsert (file.set p.1 (setXmax p.2 txid)) data txid)
    else none

/-- Models `DbOperationsImpl::read_all` decodes tuples sequentially from offset 0;
in the tuple-granularity model this is the row list itself. -/
def dbReadAll (file : List Row) : List Row := file

theorem encSize_setXmax (r : Row) (txid : Nat) :
    encSize (setXmax r txid) = encSize r := rfl

theorem encSize_pos (r : Row) : 0 < encSize r := by
  simp [encSize]

theorem fileSize_append (f g : List Row) :
    fileSize (f ++ g) = fileSize f + fileSize g := by
  simp [fileSize]

/-- Locating the start of a freshly appended row always finds it. -/
theorem locate_append_fileSize (file : List Row) (r : Row) :
    locate (file ++ [r]) (fileSize file) = some (file.length, r) := by
  induction file with
  | nil => simp [locate, fileSize]
  | cons hd tl ih =>
    have hpos : 0 < encSize hd := encSize_pos hd
    have hsz : fileSize (hd :: tl) = encSize hd + fileSize tl := by
      simp [fileSize]
    simp only [List.cons_append, locate, hsz]
    rw [if_neg (by omega), if_neg (by omega)]
    have harith : encSize hd + fileSize tl - encSize hd = fileSize tl := by
      omega
    rw [harith]
    simp [List.append_eq, ih]

/-- Claim support: a successful `locate` returns a row actually stored at
that index. -/
theorem locate_get : ∀ (file : List Row) (off i : Nat) (r : Row),
    locate file off = some (i, r) → file.get? i = some r := by
  intro file
  induction file with
  | nil => intro off i r h; simp [locate] at h
  | cons hd tl ih =>
    intro off i r h
    simp only [locate] at h
    by_cases h0 : off = 0
    · simp [h0] at h
      simp [h.1.symm, h.2.symm]
    · rw [if_neg h0] at h
      by_cases hlt : off < encSize hd
      · simp [hlt] at h
      · rw [if_neg hlt] at h
        match hloc : locate tl (off - encSize hd) with
        | none => rw [hloc] at h; simp at h
        | some q =>
          rw [hloc] at h
          simp at h
          obtain ⟨hi, hr⟩ := h
          have := ih (off - encSize hd) q.1 q.2 (by rw [hloc])
          cases i with
          | zero => omega
          | succ j =>
            have hj : j = q.1 := by omega
            simpa [hj, hr] using this

/-- Models one open handler session of `FileHandlerImpl`: the on-disk rows
and the `BufWriter` write cursor.  `FileHandlerImpl::new` opens the file
with `O_APPEND`, leaving the cursor at 0; `append` reads
`stream_position()` first (so it reports the pre-write cursor, stale on the
first append of a session over a non-empty file), then `write_all` +
`flush` land the bytes at end of file and move the cursor to the new end.
`read`, `read_all` and `update` open fresh handles and are unaffected by
this cursor. -/
structure FileSession where
  rows : List Row
  pos : Nat
deriving DecidableEq, Repr

/-- Models `FileHandlerImpl::new` over a file with the given contents: the
`BufWriter` cursor starts at 0 regardless of the file length. -/
def openSession (rows : List Row) : FileSession :=
  { rows := rows, pos := 0 }

/-- Models `DbOperationsImpl::insert` with the handler cursor explicit: the
row is appended at end of file (`O_APPEND`), the cursor moves to the new
end, but the returned `offset` is the pre-write `stream_position` — which
is 0, not the end of file, on the first append after opening an existing
non-empty file. -/
def dbInsertS (s : FileSession) (data : List Nat) (txid : Nat) :
    FileSession × OffsetSize :=
  ({ rows := s.rows ++ [mkRow txid data],
     pos := fileSize s.rows + (64 + data.length) },
   { offset := s.pos, size := 64 + data.length })

/-- CLAIM C6 counterexample: open a handler over an existing one-row file
(payload `[7]`) and perform the first `insert([9], 3)` of the session.  The
row lands at end of file, but the returned range is `(0, 65)` — the stale
cursor — and `read_with_offset` on that range decodes the pre-existing
first tuple, payload `[7]`, not the inserted `[9]`: the round-trip fails. -/
theorem claim_c6_counterexample :
    dbInsertS (openSession [mkRow 0 [7]]) [9] 3 =
      ({ rows := [mkRow 0 [7], mkRow 3 [9]], pos := 130 },
       { offset := 0, size := 65 }) ∧
    (dbRead [mkRow 0 [7], mkRow 3 [9]]
      { offset := 0, size := 65 }).map Row.data = some [7] ∧
    ¬ ((dbRead (dbInsertS (openSession [mkRow 0 [7]]) [9] 3).1.rows
          (dbInsertS (openSession [mkRow 0 [7]]) [9] 3).2).map Row.data =
        some [9]) := by
  refine ⟨by decide, by decide, by decide⟩

/-- CLAIM C6 as amended: for every payload `data` and transaction id
`txid`, provided the handler's write cursor is at end of file when `insert`
is called (true on a session over an initially empty file, and
re-established by every completed append — but not for the first append
after opening an existing non-empty file, see the counterexample),
`insert(data, txid)` then `read_with_offset` on the returned range yields a
row whose payload equals `data` byte for byte and whose header has
`xmin = cmin = txid` and `xmax = cmax = u64::MAX`; afterwards the cursor is
again at end of file, so every later insert of the session round-trips as
well. -/
theorem claim_c6_insert_read_roundtrip (s : FileSession) (data : List Nat)
    (txid : Nat) (hcur : s.pos = fileSize s.rows) :
    dbRead (dbInsertS s data txid).1.rows (dbInsertS s data txid).2 =
      some (mkRow txid data) ∧
    (mkRow txid data).data = data ∧
    (mkRow txid data).header.xmin = txid ∧
    (mkRow txid data).header.cmin = txid ∧
    (mkRow txid data).header.xmax = SENT ∧
    (mkRow txid data).header.cmax = SENT ∧
    (dbInsertS s data txid).2 =
      { offset := fileSize s.rows, size := 64 + data.length } ∧
    (dbInsertS s data txid).1.pos =
      fileSize (dbInsertS s data txid).1.rows := by
  refine ⟨?_, rfl, rfl, rfl, rfl, rfl, ?_, ?_⟩
  · have hsz : encSize (mkRow txid data) = 64 + data.length := by
      simp [encSize, mkRow]
    simp only [dbInsertS, dbRead, hcur, locate_append_fileSize]
    rw [if_pos]
    constructor
    · omega
    · rw [fileSize_append]
      simp [fileSize, hsz]
  · simp [dbInsertS, hcur]
  · simp only [dbInsertS, fileSize_append]
    simp [fileSize, encSize, mkRow]

/-- Witness for the amended C6 at a concrete input: a session over an
initially empty file (cursor 0 = file length 0), inserting payload `[7]`
at transaction id 0. -/
theorem claim_c6_witness :
    dbRead (dbInsertS (openSession []) [7] 0).1.rows
      (dbInsertS (openSession []) [7] 0).2 = some (mkRow 0 [7]) ∧
    (mkRow 0 [7]).data = [7] ∧
    (mkRow 0 [7]).header.xmin = 0 ∧
    (mkRow 0 [7]).header.cmin = 0 ∧
    (mkRow 0 [7]).header.xmax = SENT ∧
    (mkRow 0 [7]).header.cmax = SENT ∧
    (dbInsertS (openSession []) [7] 0).2 =
      { offset := fileSize [], size := 64 + 1 } ∧
    (dbInsertS (openSession []) [7] 0).1.pos =
      fileSize (dbInsertS (openSession []) [7] 0).1.rows :=
  claim_c6_insert_read_roundtrip (openSession []) [7] 0 (by decide)

/-- Replacing one row of the file by a row of the same encoded size leaves
the total byte length unchanged. -/
theorem fileSize_set_of_encSize_eq : ∀ (l : List Row) (i : Nat) (a r : Row),
    l.get? i = some r → encSize a = encSize r →
    fileSize (l.set i a) = fileSize l := by
  intro l
  induction l with
  | nil => intro i a r h _; simp at h
  | cons hd tl ih =>
    intro i a r h heq
    cases i with
    | zero =>
      rw [List.get?_cons_zero, Option.some.injEq] at h
      simp [fileSize, List.set, heq, h]
    | succ j =>
      rw [List.get?_cons_succ] at h
      have := ih j a r h heq
      simp only [List.set, fileSize, List.map_cons, List.sum_cons]
      simpa [fileSize] using this

/-- CLAIM C5: a successful `update_with_offset(old_range, data, txid)` with a
valid transaction id leaves the tuple at the old range with `xmax = txid`
(not the live sentinel) and an unchanged `tuple_length`, appends exactly one
new live tuple carrying payload `data`, and keeps the file decodable by
`read_all` (the in-place header overwrite preserves the encoded byte size,
so all tuple boundaries survive). -/
theorem claim_c5_update_with_offset (file : List Row) (os : OffsetSize)
    (data : List Nat) (txid : Nat) (file' : List Row) (os' : OffsetSize)
    (hsucc : dbUpdate file os data txid = some (file', os'))
    (htx : txid ≠ SENT) :
    ∃ i r, locate file os.offset = some (i, r) ∧
      file' = file.set i (setXmax r txid) ++ [mkRow txid data] ∧
      (setXmax r txid).header.xmax = txid ∧
      (setXmax r txid).header.xmax ≠ SENT ∧
      (setXmax r txid).header.tuple_length = r.header.tuple_length ∧
      encSize (setXmax r txid) = encSize r ∧
      (mkRow txid data).header.xmax = SENT ∧
      (mkRow txid data).data = data ∧
      os' = { offset := fileSize file, size := 64 + data.length } ∧
      dbReadAll file' = file.set i (setXmax r txid) ++ [mkRow txid data] ∧
      fileSize file' = fileSize file + (64 + data.length) := by
  unfold dbUpdate at hsucc
  split at hsucc
  · simp at hsucc
  · next p hloc =>
    split at hsucc
    · next hcond =>
      simp only [dbInsert, Option.some.injEq, Prod.mk.injEq] at hsucc
      obtain ⟨hf, ho⟩ := hsucc
      have hget : file.get? p.1 = some p.2 :=
        locate_get file os.offset p.1 p.2 (by rw [hloc])
      have hfs : fileSize (file.set p.1 (setXmax p.2 txid)) = fileSize file :=
        fileSize_set_of_encSize_eq file p.1 (setXmax p.2 txid) p.2 hget
          (encSize_setXmax p.2 txid)
      refine ⟨p.1, p.2, by rw [hloc], hf.symm, rfl, by simpa [setXmax] using htx,
        rfl, rfl, rfl, rfl, ?_, ?_, ?_⟩
      · rw [← ho, hfs]
      · rw [← hf]; rfl
      · rw [← hf, fileSize_append, hfs]
        simp [fileSize, encSize, mkRow]
    · simp at hsucc

/-- Witness for C5 at a concrete input: a one-row file produced by
`insert([7], 0)`, updated at range `(0, 65)` with payload `[9, 9]` and
transaction id 3. -/
theorem claim_c5_witness :
    (3 ≠ SENT) ∧
    (∃ i r, locate [mkRow 0 [7]] (0 : Nat) = some (i, r) ∧
      [setXmax (mkRow 0 [7]) 3, mkRow 3 [9, 9]] =
        ([mkRow 0 [7]].set i (setXmax r 3)) ++ [mkRow 3 [9, 9]] ∧
      (setXmax r 3).header.xmax = 3 ∧
      (setXmax r 3).header.xmax ≠ SENT ∧
      (setXmax r 3).header.tuple_length = r.header.tuple_length ∧
      encSize (setXmax r 3) = encSize r ∧
      (mkRow 3 [9, 9]).header.xmax = SENT ∧
      (mkRow 3 [9, 9]).data = [9, 9] ∧
      ({ offset := 65, size := 66 } : OffsetSize) =
        { offset := fileSize [mkRow 0 [7]], size := 64 + 2 } ∧
      dbReadAll [setXmax (mkRow 0 [7]) 3, mkRow 3 [9, 9]] =
        ([mkRow 0 [7]].set i (setXmax r 3)) ++ [mkRow 3 [9, 9]] ∧
      fileSize [setXmax (mkRow 0 [7]) 3, mkRow 3 [9, 9]] =
        fileSize [mkRow 0 [7]] + (64 + 2)) :=
  ⟨by decide,
   claim_c5_update_with_offset [mkRow 0 [7]] { offset := 0, size := 65 }
     [9, 9] 3 [setXmax (mkRow 0 [7]) 3, mkRow 3 [9, 9]]
     { offset := 65, size := 66 } (by decide) (by decide)⟩

/-- Little-endian 8-byte encoding of a `u64`, as bincode writes `usize`
length prefixes.  The final byte carries `n / 256^7` without a final
modulus, which agrees with bincode for every value below `2^64` (all Rust
`usize` values) and makes the encoding invertible for every `Nat`. -/
def u64le (n : Nat) : List Nat :=
  [n % 256, n / 256 % 256, n / 65536 % 256, n / 16777216 % 256,
   n / 4294967296 % 256, n / 1099511627776 % 256,
   n / 281474976710656 % 256, n / 72057594037927936]

/-- Read one little-endian `u64` from the head of a byte list, returning the
value and the remaining bytes. -/
def readU64 : List Nat → Option (Nat × List Nat)
  | b0 :: b1 :: b2 :: b3 :: b4 :: b5 :: b6 :: b7 :: rest =>
    some (b0 + 256 * b1 + 65536 * b2 + 16777216 * b3 + 4294967296 * b4 +
      1099511627776 * b5 + 281474976710656 * b6 + 72057594037927936 * b7,
      rest)
  | _ => none

/-- bincode encoding of a `Vec<u8>`: 8-byte length prefix, then the bytes. -/
def encBytes (b : List Nat) : List Nat := u64le b.length ++ b

/-- bincode decoding of a `Vec<u8>`: read the length prefix, then that many
bytes; fails on a short buffer. -/
def decBytes (l : List Nat) : Option (List Nat × List Nat) :=
  match readU64 l with
  | none => none
  | some p =>
    if p.1 ≤ p.2.length then some (p.2.take p.1, p.2.drop p.1) else none

/-- Models `Document<K, V>` of `index.rs`.  The key-value service instantiates
`K = V = Vec<u8>`, so both fields are byte lists. -/
structure Doc where
  id : List Nat
  value : List Nat
deriving DecidableEq, Repr

/-- bincode encoding of a `Document<Vec<u8>, Vec<u8>>`: the two length-prefixed
byte vectors in field order. -/
def encodeDoc (d : Doc) : List Nat := encBytes d.id ++ encBytes d.value

/-- bincode decoding of a `Document<Vec<u8>, Vec<u8>>`; trailing bytes are
permitted, as `bincode::deserialize` permits them. -/
def decodeDoc (l : List Nat) : Option Doc :=
  match decBytes l with
  | none => none
  | some p =>
    match decBytes p.2 with
    | none => none
    | some q => some { id := p.1, value := q.1 }

/-- The error outcomes surfaced by the index layer: `IndexError::NotFound`
and `IndexError::AlreadyExists` from `index.rs`, plus opaque decode and I/O
failures carried through `anyhow::Result`. -/
inductive Err where
  | notFound
  | alreadyExists
  | decodeFail
  | ioFail
deriving DecidableEq, Repr

deriving instance DecidableEq for Except

/-- Lookup in an association map keyed by byte lists; models
`HashMap::get` / `BTreeMap::get` (at most one binding per key is ever
stored). -/
def alGet {β : Type} : List (List Nat × β) → List Nat → Option β
  | [], _ => none
  | p :: ps, k => if p.1 = k then some p.2 else alGet ps k

/-- Insert-or-replace; models `HashMap::insert` / `BTreeMap::insert`. -/
def alInsert {β : Type} : List (List Nat × β) → List Nat → β →
    List (List Nat × β)
  | [], k, v => [(k, v)]
  | p :: ps, k, v => if p.1 = k then (k, v) :: ps else p :: alInsert ps k v

/-- Remove a binding; models `HashMap::remove` / `BTreeMap::remove`. -/
def alRemove {β : Type} : List (List Nat × β) → List Nat →
    List (List Nat × β)
  | [], _ => []
  | p :: ps, k => if p.1 = k then ps else p :: alRemove ps k

/-- State of `HashMapIndex` (`hashmap.rs`) and of `BTree` (`btree.rs`): the
in-memory id-to-range map, the exclusively owned backing file behind the
boxed `DbOperations`, and the instance transaction id.  The two index
strategies differ only in the map container (unordered vs ordered, both
modelled by the association map) and in the duplicate check performed by
`BTree::insert`. -/
structure MapIdxState where
  map : List (List Nat × OffsetSize)
  file : List Row
  txid : Nat
deriving DecidableEq, Repr

/-- The shared bootstrap loop of `HashMapIndex::new` and `BTree::new`:
scan `read_all`, skip rows whose `cmax` differs from the sentinel while
still advancing the running offset by `tuple_length`, decode each remaining
row (a decode failure aborts construction) and record its range. -/
def mapIdxBootRows : List Row → Nat → List (List Nat × OffsetSize) →
    Option (List (List Nat × OffsetSize))
  | [], _, m => some m
  | r :: rs, off, m =>
    if r.header.cmax ≠ SENT then
      mapIdxBootRows rs (off + r.header.tuple_length) m
    else
      match decodeDoc r.data with
      | none => none
      | some d =>
        mapIdxBootRows rs (off + r.header.tuple_length)
          (alInsert m d.id { offset := off, size := r.header.tuple_length })

/-- Models `HashMapIndex::new` / `BTree::new`: bootstrap the map from the file and
initialize the transaction id to the number of map entries (`map.len()`). -/
def mapIdxNew (file : List Row) : Option MapIdxState :=
  (mapIdxBootRows file 0 []).map
    (fun m => { map := m, file := file, txid := m.length })

/-- Models `HashMapIndex::search` / `BTree::search`: look up the range in the map,
read the row there, decode the document. -/
def mapIdxSearch (st : MapIdxState) (id : List Nat) : Except Err Doc :=
  match alGet st.map id with
  | none => .error .notFound
  | some os =>
    match dbRead st.file os with
    | none => .error .ioFail
    | some r =>
      match decodeDoc r.data with
      | none => .error .decodeFail
      | some d => .ok d

/-- The insert shared by `hashmap.rs` and `btree.rs`.  With
`checkDup = true` this is `BTree::insert`, which first runs `search` and
fails with `AlreadyExists` on a hit; with `checkDup = false` it is
`HashMapIndex::insert`, which performs no duplicate check and silently
replaces the map entry. -/
def mapIdxInsert (checkDup : Bool) (st : MapIdxState) (d : Doc) :
    Except Err MapIdxState :=
  if checkDup ∧ (mapIdxSearch st d.id).isOk then .error .alreadyExists
  else
    let p := dbInsert st.file (encodeDoc d) st.txid
    .ok { map := alInsert st.map d.id p.2, file := p.1, txid := st.txid + 1 }

/-- Models `HashMapIndex::delete` / `BTree::delete`: tombstone the row via
`delete_with_offset`, drop the map entry, bump the transaction id. -/
def mapIdxDelete (st : MapIdxState) (id : List Nat) : Except Err MapIdxState :=
  match alGet st.map id with
  | none => .error .notFound
  | some os =>
    match dbDelete st.file os st.txid with
    | none => .error .ioFail
    | some f =>
      .ok { map := alRemove st.map id, file := f, txid := st.txid + 1 }

/-- Models `HashMapIndex::update` / `BTree::update`: run `update_with_offset` on the
recorded range and re-point the map entry at the new range. -/
def mapIdxUpdate (st : MapIdxState) (id : List Nat) (d : Doc) :
    Except Err MapIdxState :=
  match alGet st.map id with
  | none => .error .notFound
  | some os =>
    match dbUpdate st.file os (encodeDoc d) st.txid with
    | none => .error .ioFail
    | some p =>
      .ok { map := alInsert st.map d.id p.2, file := p.1, txid := st.txid + 1 }

/-- Test fixture: the document with id byte `[1]` and value byte `[2]`. -/
def c1Doc : Doc := { id := [1], value := [2] }

/-- Test fixture: the backing file left behind by `insert(c1Doc)` at
transaction id 0 followed by `delete([1])` at transaction id 1 on a
`HashMapIndex` that started from an empty file.  Its single row has
`xmax = 1` (tombstoned) but `cmax = SENT`, because `delete_with_offset`
only assigns `xmax`. -/
def c1FileDeleted : List Row := [setXmax (mkRow 0 (encodeDoc c1Doc)) 1]

/-- CLAIM C1 (code bug, evaluation at the failing input): starting from an
empty file, `insert({id [1], value [2]})` then `delete([1])` both succeed,
leaving a single tombstoned row (`xmax = 1`, not the live sentinel).  Yet a
fresh bootstrap from that file alone recovers the id as live — because
`delete_with_offset` sets only `xmax` while the bootstrap of
`HashMapIndex::new` / `BTree::new` skips rows by testing `cmax`, which no
code path ever assigns — and `search([1])` returns the deleted document
instead of `NotFound`. -/
theorem claim_c1_bootstrap_returns_deleted_doc :
    mapIdxNew [] = some { map := [], file := [], txid := 0 } ∧
    mapIdxInsert false { map := [], file := [], txid := 0 } c1Doc =
      .ok { map := [([1], { offset := 0, size := 82 })],
            file := [mkRow 0 (encodeDoc c1Doc)], txid := 1 } ∧
    mapIdxDelete { map := [([1], { offset := 0, size := 82 })],
                   file := [mkRow 0 (encodeDoc c1Doc)], txid := 1 } [1] =
      .ok { map := [], file := c1FileDeleted, txid := 2 } ∧
    c1FileDeleted.map (fun r => r.header.xmax) = [1] ∧
    mapIdxNew c1FileDeleted =
      some { map := [([1], { offset := 0, size := 82 })],
             file := c1FileDeleted, txid := 1 } ∧
    mapIdxSearch { map := [([1], { offset := 0, size := 82 })],
                   file := c1FileDeleted, txid := 1 } [1] = .ok c1Doc := by
  decide

/-- Test fixtures for the duplicate-insert run: two documents sharing the
id byte `[1]`. -/
def c3DocA : Doc := { id := [1], value := [2] }

/-- Second document with the same id as `c3DocA` but a different value. -/
def c3DocB : Doc := { id := [1], value := [3] }

/-- CLAIM C3 (code bug, evaluation at the failing input):
`HashMapIndex::insert` performs no duplicate check.  Inserting `c3DocB`
while its id `[1]` is already present succeeds (no `AlreadyExists`) and
silently re-points the map entry, so a subsequent `search([1])` returns the
second document: the stored value for a known id has been replaced. -/
theorem claim_c3_hashmap_insert_overwrites :
    mapIdxInsert false { map := [], file := [], txid := 0 } c3DocA =
      .ok { map := [([1], { offset := 0, size := 82 })],
            file := [mkRow 0 (encodeDoc c3DocA)], txid := 1 } ∧
    mapIdxInsert false
      { map := [([1], { offset := 0, size := 82 })],
        file := [mkRow 0 (encodeDoc c3DocA)], txid := 1 } c3DocB =
      .ok { map := [([1], { offset := 82, size := 82 })],
            file := [mkRow 0 (encodeDoc c3DocA), mkRow 1 (encodeDoc c3DocB)],
            txid := 2 } ∧
    mapIdxSearch
      { map := [([1], { offset := 82, size := 82 })],
        file := [mkRow 0 (encodeDoc c3DocA), mkRow 1 (encodeDoc c3DocB)],
        txid := 2 } [1] = .ok c3DocB := by
  decide

/-- Models `NoIndex::insert` (`no_index.rs`): serialize the document, append it via
the operations layer, bump the transaction id.  No map is maintained and no
duplicate check is performed. -/
def niInsert (file : List Row) (txid : Nat) (d : Doc) : List Row × Nat :=
  ((dbInsert file (encodeDoc d) txid).1, txid + 1)

/-- The scan loop of `NoIndex::search`: decode each row of `read_all` in
file order (a decode failure aborts) and return the first document whose id
matches — without ever inspecting the tombstone header fields. -/
def niSearchGo : List Row → List Nat → Except Err Doc
  | [], _ => .error .notFound
  | r :: rs, id =>
    match decodeDoc r.data with
    | none => .error .decodeFail
    | some d => if d.id = id then .ok d else niSearchGo rs id

/-- Models `NoIndex::search`. -/
def niSearch (file : List Row) (id : List Nat) : Except Err Doc :=
  niSearchGo (dbReadAll file) id

/-- The scan loop of `NoIndex::delete`: track a running `OffsetSize` whose
`size` is the current row's `tuple_length`; on the first id match, call
`delete_with_offset` at the accumulated range and stop. -/
def niDeleteGo (full : List Row) (txid : Nat) (id : List Nat) :
    List Row → Nat → Except Err (List Row × Nat)
  | [], _ => .error .notFound
  | r :: rs, off =>
    match decodeDoc r.data with
    | none => .error .decodeFail
    | some d =>
      if d.id = id then
        match dbDelete full { offset := off, size := r.header.tuple_length }
            txid with
        | none => .error .ioFail
        | some f => .ok (f, txid + 1)
      else niDeleteGo full txid id rs (off + r.header.tuple_length)

/-- Models `NoIndex::delete`. -/
def niDelete (file : List Row) (txid : Nat) (id : List Nat) :
    Except Err (List Row × Nat) :=
  niDeleteGo file txid id file 0

/-- The scan loop of `NoIndex::update`, analogous to the delete loop but
calling `update_with_offset`. -/
def niUpdateGo (full : List Row) (txid : Nat) (id : List Nat) (data : List Nat) :
    List Row → Nat → Except Err (List Row × Nat)
  | [], _ => .error .notFound
  | r :: rs, off =>
    match decodeDoc r.data with
    | none => .error .decodeFail
    | some d =>
      if d.id = id then
        match dbUpdate full { offset := off, size := r.header.tuple_length }
            data txid with
        | none => .error .ioFail
        | some p => .ok (p.1, txid + 1)
      else niUpdateGo full txid id data rs (off + r.header.tuple_length)

/-- Models `NoIndex::update`. -/
def niUpdate (file : List Row) (txid : Nat) (id : List Nat) (d : Doc) :
    Except Err (List Row × Nat) :=
  niUpdateGo file txid id (encodeDoc d) file 0

/-- Setting a row equal to the element already stored there is a no-op. -/
theorem list_set_same {α : Type} : ∀ (l : List α) (i : Nat) (a : α),
    l.get? i = some a → l.set i a = l := by
  intro l
  induction l with
  | nil => intro i a h; simp at h
  | cons hd tl ih =>
    intro i a h
    cases i with
    | zero =>
      rw [List.get?_cons_zero, Option.some.injEq] at h
      simp [List.set, h]
    | succ j =>
      rw [List.get?_cons_succ] at h
      simp [List.set, ih j a h]

/-- Lemma: `delete_with_offset` overwrites only header bytes: the payload sequence
of the file is untouched. -/
theorem dbDelete_data_map (full f : List Row) (os : OffsetSize) (t : Nat)
    (h : dbDelete full os t = some f) :
    f.map Row.data = full.map Row.data := by
  unfold dbDelete at h
  split at h
  · simp at h
  · next p hloc =>
    split at h
    · next hcond =>
      rw [Option.some.injEq] at h
      have hget : full.get? p.1 = some p.2 :=
        locate_get full os.offset p.1 p.2 (by rw [hloc])
      have hmap : (full.map Row.data).get? p.1 = some p.2.data := by
        rw [List.get?_map, hget]; rfl
      rw [← h, List.map_set]
      exact list_set_same (full.map Row.data) p.1 p.2.data hmap
    · simp at h

/-- Lemma: `NoIndex::search` depends only on the payload bytes of the rows. -/
theorem niSearchGo_congr : ∀ (l1 l2 : List Row) (id : List Nat),
    l1.map Row.data = l2.map Row.data → niSearchGo l1 id = niSearchGo l2 id := by
  intro l1
  induction l1 with
  | nil =>
    intro l2 id h
    cases l2 with
    | nil => rfl
    | cons b bs => simp at h
  | cons a as ih =>
    intro l2 id h
    cases l2 with
    | nil => simp at h
    | cons b bs =>
      simp only [List.map_cons, List.cons.injEq] at h
      obtain ⟨hd, ht⟩ := h
      simp only [niSearchGo, hd, ih bs id ht]

/-- A successful `NoIndex::delete` preserves the payload sequence of the
file (it only rewrites one tuple header in place). -/
theorem niDeleteGo_data_map (full : List Row) (txid : Nat) (id : List Nat) :
    ∀ (rest : List Row) (off : Nat) (f : List Row) (t : Nat),
    niDeleteGo full txid id rest off = .ok (f, t) →
    f.map Row.data = full.map Row.data := by
  intro rest
  induction rest with
  | nil => intro off f t h; simp [niDeleteGo] at h
  | cons r rs ih =>
    intro off f t h
    simp only [niDeleteGo] at h
    split at h
    · exact absurd h (by simp)
    · split at h
      · split at h
        · exact absurd h (by simp)
        · next g hdel =>
          simp only [Except.ok.injEq, Prod.mk.injEq] at h
          rw [← h.1]
          exact dbDelete_data_map full g _ txid hdel
      · exact ih (off + r.header.tuple_length) f t h

/-- CLAIM C10: on the NoIndex strategy, a successful `delete(id)` (which
only overwrites the tuple header to set `xmax`) does not hide the document:
a subsequent `search(id)` still returns it, because the search scans every
row of `read_all` and matches ids without inspecting tombstone fields. -/
theorem claim_c10_noindex_search_after_delete (file : List Row) (txid : Nat)
    (id : List Nat) (doc : Doc) (file' : List Row) (txid' : Nat)
    (hs : niSearch file id = .ok doc)
    (hd : niDelete file txid id = .ok (file', txid')) :
    niSearch file' id = .ok doc := by
  have hmap : file'.map Row.data = file.map Row.data :=
    niDeleteGo_data_map file txid id file 0 file' txid' hd
  unfold niSearch dbReadAll at hs ⊢
  rw [niSearchGo_congr file' file id hmap]
  exact hs

/-- Test fixture for the NoIndex run: document with id `[4]`, value `[5]`. -/
def c10Doc : Doc := { id := [4], value := [5] }

/-- Witness for C10 at a concrete input: a one-row file holding `c10Doc`;
after `delete([4])` at transaction id 5 the search still returns the
document. -/
theorem claim_c10_witness :
    niSearch [setXmax (mkRow 0 (encodeDoc c10Doc)) 5] [4] = .ok c10Doc :=
  claim_c10_noindex_search_after_delete [mkRow 0 (encodeDoc c10Doc)] 5 [4]
    c10Doc [setXmax (mkRow 0 (encodeDoc c10Doc)) 5] 6 (by decide) (by decide)

/-- State of the counting Bloom filter (`bloomfilter/src/lib.rs`): a bitmap
of `size` positions and a counter map from position to `i32`.  The two hash
families (MD5 and SHA-256 in the source) are external cryptographic
primitives; the filter logic depends only on their values modulo `size`, so
they are passed as abstract functions on key bytes.  The bitmap and counter
map are modelled as total functions (`Vec<bool>` indexed within bounds,
`HashMap<usize, i32>` with explicit presence via `Option`). -/
structure BloomFilter where
  size : Nat
  bitmap : Nat → Bool
  counter : Nat → Option Int

/-- Models `BloomFilter::new(size)`: all bits clear, no counters. -/
def bloomNew (size : Nat) : BloomFilter :=
  { size := size, bitmap := fun _ => false, counter := fun _ => none }

/-- Pointwise bitmap update. -/
def setBit (m : Nat → Bool) (i : Nat) (b : Bool) : Nat → Bool :=
  fun j => if j = i then b else m j

/-- Pointwise counter-map update (insert-or-replace at one key). -/
def setCnt (m : Nat → Option Int) (i : Nat) (v : Int) : Nat → Option Int :=
  fun j => if j = i then some v else m j

/-- One half of `BloomFilter::insert`: set the bit at index `i` and add one
to its counter (`1 + counter[i]` if present, else `1`). -/
def bloomBump (bf : BloomFilter) (i : Nat) : BloomFilter :=
  { bf with
    bitmap := setBit bf.bitmap i true,
    counter := setCnt bf.counter i (1 + ((bf.counter i).getD 0)) }

/-- Models `BloomFilter::insert`: bump the MD5 position, then the SHA-256
position (both taken modulo `size`). -/
def bloomInsert (h1 h2 : List Nat → Nat) (bf : BloomFilter) (x : List Nat) :
    BloomFilter :=
  bloomBump (bloomBump bf (h1 x % bf.size)) (h2 x % bf.size)

/-- Models `BloomFilter::check`: true iff the bits at both hash positions are set
(the source returns early when the first is clear). -/
def bloomCheck (h1 h2 : List Nat → Nat) (bf : BloomFilter) (x : List Nat) :
    Bool :=
  bf.bitmap (h1 x % bf.size) && bf.bitmap (h2 x % bf.size)

/-- One half of `BloomFilter::remove`: if a counter exists at index `i`,
decrement it; when the result is not positive, clamp it to zero and clear
the bit. -/
def bloomDrop (bf : BloomFilter) (i : Nat) : BloomFilter :=
  match bf.counter i with
  | none => bf
  | some el0 =>
    if el0 - 1 ≤ 0 then
      { bf with
        bitmap := setBit bf.bitmap i false,
        counter := setCnt bf.counter i 0 }
    else { bf with counter := setCnt bf.counter i (el0 - 1) }

/-- Models `BloomFilter::remove`: drop the MD5 position, then the SHA-256
position. -/
def bloomRemove (h1 h2 : List Nat → Nat) (bf : BloomFilter) (x : List Nat) :
    BloomFilter :=
  bloomDrop (bloomDrop bf (h1 x % bf.size)) (h2 x % bf.size)

theorem bloomBump_size (bf : BloomFilter) (i : Nat) :
    (bloomBump bf i).size = bf.size := rfl

theorem bloomDrop_size (bf : BloomFilter) (i : Nat) :
    (bloomDrop bf i).size = bf.size := by
  unfold bloomDrop
  split
  · rfl
  · split <;> rfl

theorem bloomBump_counter_at (bf : BloomFilter) (i : Nat) :
    (bloomBump bf i).counter i = some (1 + (bf.counter i).getD 0) := by
  simp [bloomBump, setCnt]

theorem bloomBump_counter_ne (bf : BloomFilter) (i j : Nat) (h : j ≠ i) :
    (bloomBump bf i).counter j = bf.counter j := by
  simp [bloomBump, setCnt, h]

theorem bloomBump_bitmap_at (bf : BloomFilter) (i : Nat) :
    (bloomBump bf i).bitmap i = true := by
  simp [bloomBump, setBit]

theorem bloomDrop_le (bf : BloomFilter) (i : Nat) (c : Int)
    (h : bf.counter i = some c) (hc : c - 1 ≤ 0) :
    bloomDrop bf i =
      { bf with bitmap := setBit bf.bitmap i false,
                counter := setCnt bf.counter i 0 } := by
  unfold bloomDrop
  rw [h]
  simp [hc]

theorem bloomDrop_pos (bf : BloomFilter) (i : Nat) (c : Int)
    (h : bf.counter i = some c) (hc : ¬(c - 1 ≤ 0)) :
    bloomDrop bf i = { bf with counter := setCnt bf.counter i (c - 1) } := by
  unfold bloomDrop
  rw [h]
  simp [hc]

theorem bloomDrop_bitmap_at_le (bf : BloomFilter) (i : Nat) (c : Int)
    (h : bf.counter i = some c) (hc : c - 1 ≤ 0) :
    (bloomDrop bf i).bitmap i = false := by
  unfold bloomDrop
  rw [h]
  simp [hc, setBit]

theorem bloomDrop_counter_at_le (bf : BloomFilter) (i : Nat) (c : Int)
    (h : bf.counter i = some c) (hc : c - 1 ≤ 0) :
    (bloomDrop bf i).counter i = some 0 := by
  unfold bloomDrop
  rw [h]
  simp [hc, setCnt]

theorem bloomDrop_counter_at_pos (bf : BloomFilter) (i : Nat) (c : Int)
    (h : bf.counter i = some c) (hc : ¬(c - 1 ≤ 0)) :
    (bloomDrop bf i).counter i = some (c - 1) := by
  unfold bloomDrop
  rw [h]
  simp [hc, setCnt]

theorem bloomDrop_counter_ne (bf : BloomFilter) (i j : Nat) (h : j ≠ i) :
    (bloomDrop bf i).counter j = bf.counter j := by
  unfold bloomDrop
  split
  · rfl
  · split <;> simp [setCnt, h]

/-- CLAIM C7: counting Bloom filter, for any pair of hash families: (1)
after `insert(x)`, `check(x)` is true; (2) a fresh filter rejects every
element; (3) if either of an element's two hash positions was never set,
`check(x)` is false; (4) `insert(x)` followed by `remove(x)`, when no other
inserts contributed to the counters at the two positions of `x`, makes
`check(x)` false.  The positive-size hypotheses reflect that the source
computes `hash % size`, which panics on a zero-sized filter. -/
theorem claim_c7_bloom_filter (h1 h2 : List Nat → Nat) :
    (∀ (bf : BloomFilter) (x : List Nat), 0 < bf.size →
      bloomCheck h1 h2 (bloomInsert h1 h2 bf x) x = true) ∧
    (∀ (size : Nat) (x : List Nat), 0 < size →
      bloomCheck h1 h2 (bloomNew size) x = false) ∧
    (∀ (bf : BloomFilter) (x : List Nat),
      (bf.bitmap (h1 x % bf.size) = false ∨
       bf.bitmap (h2 x % bf.size) = false) →
      bloomCheck h1 h2 bf x = false) ∧
    (∀ (bf : BloomFilter) (x : List Nat), 0 < bf.size →
      (bf.counter (h1 x % bf.size)).getD 0 ≤ 0 →
      (bf.counter (h2 x % bf.size)).getD 0 ≤ 0 →
      bloomCheck h1 h2 (bloomRemove h1 h2 (bloomInsert h1 h2 bf x) x) x =
        false) := by
  refine ⟨?_, ?_, ?_, ?_⟩
  · intro bf x _
    simp only [bloomCheck, bloomInsert, bloomBump_size, bloomBump, setBit]
    by_cases heq : h1 x % bf.size = h2 x % bf.size <;> simp [heq]
  · intro size x _
    simp [bloomCheck, bloomNew]
  · intro bf x h
    rcases h with h | h <;> simp [bloomCheck, h]
  · intro bf x _ hg1 hg2
    have hrem : bloomRemove h1 h2 (bloomInsert h1 h2 bf x) x =
        bloomDrop
          (bloomDrop (bloomBump (bloomBump bf (h1 x % bf.size))
            (h2 x % bf.size)) (h1 x % bf.size)) (h2 x % bf.size) := by
      simp only [bloomRemove, bloomInsert, bloomBump_size, bloomDrop_size]
    have hchk : ∀ bfq : BloomFilter, bfq.size = bf.size →
        bfq.bitmap (h2 x % bf.size) = false →
        bloomCheck h1 h2 bfq x = false := by
      intro bfq hq hb
      simp only [bloomCheck, hq, hb, Bool.and_false]
    rw [hrem]
    by_cases heq : h1 x % bf.size = h2 x % bf.size
    · rw [heq] at hg1 ⊢
      have hcb : (bloomBump (bloomBump bf (h2 x % bf.size))
          (h2 x % bf.size)).counter (h2 x % bf.size) =
          some (1 + (1 + (bf.counter (h2 x % bf.size)).getD 0)) := by
        rw [bloomBump_counter_at, bloomBump_counter_at]
        simp
      by_cases hgg : (1 + (1 + (bf.counter (h2 x % bf.size)).getD 0)) - 1 ≤ 0
      · have hc1 := bloomDrop_counter_at_le _ _ _ hcb hgg
        have hb2 := bloomDrop_bitmap_at_le _ _ _ hc1 (by omega)
        exact hchk _ (by simp [bloomDrop_size, bloomBump_size]) hb2
      · have hc1 := bloomDrop_counter_at_pos _ _ _ hcb hgg
        have hb2 := bloomDrop_bitmap_at_le _ _ _ hc1 (by omega)
        exact hchk _ (by simp [bloomDrop_size, bloomBump_size]) hb2
    · have hcB : (bloomBump (bloomBump bf (h1 x % bf.size))
          (h2 x % bf.size)).counter (h2 x % bf.size) =
          some (1 + (bf.counter (h2 x % bf.size)).getD 0) := by
        rw [bloomBump_counter_at, bloomBump_counter_ne _ _ _ (Ne.symm heq)]
      have hcB1 : (bloomDrop (bloomBump (bloomBump bf (h1 x % bf.size))
          (h2 x % bf.size)) (h1 x % bf.size)).counter (h2 x % bf.size) =
          some (1 + (bf.counter (h2 x % bf.size)).getD 0) := by
        rw [bloomDrop_counter_ne _ _ _ (Ne.symm heq), hcB]
      have hb2 := bloomDrop_bitmap_at_le _ _ _ hcB1 (by omega)
      exact hchk _ (by simp [bloomDrop_size, bloomBump_size]) hb2

/-- A concrete stand-in hash function used only to instantiate witnesses:
sum of the bytes. -/
def hashSum : List Nat → Nat := fun l => l.foldl (fun a b => a + b) 0

/-- A second concrete stand-in hash function for witnesses. -/
def hashMix : List Nat → Nat := fun l => l.foldl (fun a b => 2 * a + b + 1) 1

/-- Witness for C7 at a concrete input: a fresh size-8 filter and the
element `[3]`. -/
theorem claim_c7_witness :
    bloomCheck hashSum hashMix
      (bloomInsert hashSum hashMix (bloomNew 8) [3]) [3] = true ∧
    bloomCheck hashSum hashMix (bloomNew 8) [3] = false ∧
    bloomCheck hashSum hashMix (bloomNew 8) [3] = false ∧
    bloomCheck hashSum hashMix
      (bloomRemove hashSum hashMix
        (bloomInsert hashSum hashMix (bloomNew 8) [3]) [3]) [3] = false :=
  ⟨(claim_c7_bloom_filter hashSum hashMix).1 (bloomNew 8) [3] (by decide),
   (claim_c7_bloom_filter hashSum hashMix).2.1 8 [3] (by decide),
   (claim_c7_bloom_filter hashSum hashMix).2.2.1 (bloomNew 8) [3]
     (Or.inl (by decide)),
   (claim_c7_bloom_filter hashSum hashMix).2.2.2 (bloomNew 8) [3]
     (by decide) (by decide) (by decide)⟩

/-- Models `LsmMapLeaf` of `lsm_tree.rs`: a range plus the tombstone flag kept in
memtables and SS-table files. -/
structure LsmLeaf where
  offset_size : OffsetSize
  is_deleted : Bool
deriving DecidableEq, Repr

/-- State of `LsmTree` (`lsm_tree.rs`): memtable, backing file of the owned
`DbOperations`, transaction id, Bloom filter, configured `tree_size` and the
directory of flushed SS-table maps in listing order.  Each SS-table file
`ss_table_<k>` is named by the file count at flush time, so a flush appends
to the list; directory listing is modelled as this creation order (at most a
handful of tables arise here, so lexicographic listing agrees). -/
structure LsmState where
  map : List (List Nat × LsmLeaf)
  file : List Row
  txid : Nat
  bloom : BloomFilter
  treeSize : Nat
  ssTables : List (List (List Nat × LsmLeaf))

/-- Models `LsmTree::flush_tree_to_disk`: serialize the memtable as a new
`ss_table_<count>` file and clear it. -/
def lsmFlush (st : LsmState) : LsmState :=
  { st with ssTables := st.ssTables ++ [st.map], map := [] }

/-- Models `LsmTree::handle_db_row`: skip rows whose `cmax` differs from the
sentinel while advancing the offset by `tuple_length`; otherwise decode the
document, record it in the memtable, add it to the Bloom filter, and flush
when the memtable reaches `tree_size`. -/
def lsmHandleRow (h1 h2 : List Nat → Nat) (st : LsmState) (r : Row)
    (off : Nat) : Option (LsmState × Nat) :=
  if r.header.cmax ≠ SENT then some (st, off + r.header.tuple_length)
  else
    match decodeDoc r.data with
    | none => none
    | some d =>
      let leaf : LsmLeaf :=
        { offset_size := { offset := off, size := r.header.tuple_length },
          is_deleted := false }
      let st1 := { st with map := alInsert st.map d.id leaf }
      let st2 := { st1 with bloom := bloomInsert h1 h2 st1.bloom d.id }
      let st3 := if st2.map.length = st2.treeSize then lsmFlush st2 else st2
      some (st3, off + r.header.tuple_length)

/-- The row loop of `LsmTree::process_db_rows`. -/
def lsmProcessRows (h1 h2 : List Nat → Nat) :
    List Row → LsmState → Nat → Option LsmState
  | [], st, _ => some st
  | r :: rs, st, off =>
    match lsmHandleRow h1 h2 st r off with
    | none => none
    | some p => lsmProcessRows h1 h2 rs p.1 p.2

/-- Models `LsmTree::new`: start from an empty memtable and a cleared SS-table
directory, process all rows of `read_all`, then set the transaction id to
`map.len()` — the entries remaining in the memtable after bootstrap. -/
def lsmNew (h1 h2 : List Nat → Nat) (file : List Row) (treeSize : Nat)
    (bloomSize : Nat) : Option LsmState :=
  match lsmProcessRows h1 h2 file
      { map := [], file := file, txid := 0, bloom := bloomNew bloomSize,
        treeSize := treeSize, ssTables := [] } 0 with
  | none => none
  | some st => some { st with txid := st.map.length }

/-- Read the row at a recorded range and decode its document, as the search
paths of `lsm_tree.rs` do via `read_with_offset` plus
`bincode::deserialize`. -/
def readDocAt (file : List Row) (os : OffsetSize) : Except Err Doc :=
  match dbRead file os with
  | none => .error .ioFail
  | some r =>
    match decodeDoc r.data with
    | none => .error .decodeFail
    | some d => .ok d

/-- Models `LsmTree::search_in_files`: scan the SS-table maps in directory-listing
order and return the document of the first map containing the id.  Note the
source performs no `is_deleted` check on this path: a tombstoned entry is
returned like a live one. -/
def lsmSearchFiles (file : List Row) :
    List (List (List Nat × LsmLeaf)) → List Nat → Except Err Doc
  | [], _ => .error .notFound
  | t :: ts, id =>
    match alGet t id with
    | some leaf => readDocAt file leaf.offset_size
    | none => lsmSearchFiles file ts id

/-- Models `LsmTree::search`: Bloom filter gate, then the memtable, then the
flushed files. -/
def lsmSearch (h1 h2 : List Nat → Nat) (st : LsmState) (id : List Nat) :
    Except Err Doc :=
  if ¬ bloomCheck h1 h2 st.bloom id then .error .notFound
  else
    match alGet st.map id with
    | some leaf => readDocAt st.file leaf.offset_size
    | none => lsmSearchFiles st.file st.ssTables id

/-- Models `LsmTree::insert`: fail with `AlreadyExists` when `search` succeeds;
otherwise append the document via the operations layer, record it in the
memtable, flush when the memtable reaches `tree_size`, add the id to the
Bloom filter, and bump the transaction id (in that source order). -/
def lsmInsert (h1 h2 : List Nat → Nat) (st : LsmState) (d : Doc) :
    Except Err LsmState :=
  if (lsmSearch h1 h2 st d.id).isOk then .error .alreadyExists
  else
    let p := dbInsert st.file (encodeDoc d) st.txid
    let leaf : LsmLeaf := { offset_size := p.2, is_deleted := false }
    let st1 := { st with file := p.1, map := alInsert st.map d.id leaf }
    let st2 := if st1.map.length = st1.treeSize then lsmFlush st1 else st1
    let st3 := { st2 with bloom := bloomInsert h1 h2 st2.bloom d.id }
    .ok { st3 with txid := st3.txid + 1 }

/-- Models `LsmTree::mark_ss_table_as_deleted`, iterating `process_file` over the
SS-table files in listing order; any failure on one file (id absent, entry
already tombstoned, or a failing `delete_with_offset`) moves on to the next
file.  On the first live hit it deletes the tuple through the operations
layer, bumps the transaction id and removes one Bloom count.
`handle_map_leaf` then sets `is_deleted` on its deserialized copy and
serializes it — but to a file opened by its BARE name (`file.file_name()`,
not the `ss_table_path`-prefixed path) and in append mode, so the table
listed in the directory is never effectively rewritten: even when the bare
name happens to resolve inside the directory, the append leaves the
original map at the front of the file, which is exactly what a later
`fs::read` + `bincode::deserialize` yields.  The listed tables therefore
stay unchanged, which is how this model renders the write. -/
def lsmMarkGo (h1 h2 : List Nat → Nat) (st : LsmState) (id : List Nat) :
    List (List (List Nat × LsmLeaf)) → Except Err LsmState
  | [] => .error .notFound
  | t :: ts =>
    match alGet t id with
    | none => lsmMarkGo h1 h2 st id ts
    | some leaf =>
      if leaf.is_deleted then lsmMarkGo h1 h2 st id ts
      else
        match dbDelete st.file leaf.offset_size st.txid with
        | none => lsmMarkGo h1 h2 st id ts
        | some f =>
          .ok { st with
                file := f, txid := st.txid + 1,
                bloom := bloomRemove h1 h2 st.bloom id }

/-- Entry point of `mark_ss_table_as_deleted`. -/
def lsmMark (h1 h2 : List Nat → Nat) (st : LsmState) (id : List Nat) :
    Except Err LsmState :=
  lsmMarkGo h1 h2 st id st.ssTables

/-- Models `LsmTree::delete`: Bloom gate; a memtable hit tombstones the tuple,
drops the entry and one Bloom count; otherwise the SS-table marking path
runs. -/
def lsmDelete (h1 h2 : List Nat → Nat) (st : LsmState) (id : List Nat) :
    Except Err LsmState :=
  if ¬ bloomCheck h1 h2 st.bloom id then .error .notFound
  else
    match alGet st.map id with
    | some leaf =>
      match dbDelete st.file leaf.offset_size st.txid with
      | none => .error .ioFail
      | some f =>
        .ok { st with
              file := f, map := alRemove st.map id,
              bloom := bloomRemove h1 h2 st.bloom id, txid := st.txid + 1 }
    | none => lsmMark h1 h2 st id

/-- Models `LsmTree::update`: Bloom gate; a memtable hit runs
`update_with_offset` and re-points the entry; otherwise mark the SS-table
entry deleted and insert the new document (`update_ss_table`). -/
def lsmUpdate (h1 h2 : List Nat → Nat) (st : LsmState) (id : List Nat)
    (d : Doc) : Except Err LsmState :=
  if ¬ bloomCheck h1 h2 st.bloom id then .error .notFound
  else
    match alGet st.map id with
    | some leaf =>
      match dbUpdate st.file leaf.offset_size (encodeDoc d) st.txid with
      | none => .error .ioFail
      | some p =>
        .ok { st with
              file := p.1,
              map := alInsert st.map d.id
                { offset_size := p.2, is_deleted := false },
              txid := st.txid + 1 }
    | none =>
      match lsmMark h1 h2 st id with
      | .error e => .error e
      | .ok st1 => lsmInsert h1 h2 st1 d

/-- Lemma: a binding of `alInsert m k v` is a binding of `m` or the new
pair. -/
theorem alInsert_mem {β : Type} :
    ∀ (m : List (List Nat × β)) (k : List Nat) (v : β) (p : List Nat × β),
    p ∈ alInsert m k v → p ∈ m ∨ p = (k, v) := by
  intro m
  induction m with
  | nil =>
    intro k v p h
    simp [alInsert] at h
    right
    exact h
  | cons q qs ih =>
    intro k v p h
    by_cases hq : q.1 = k
    · rw [show alInsert (q :: qs) k v = (k, v) :: qs from by
        simp [alInsert, hq]] at h
      rcases List.mem_cons.mp h with h | h
      · right; exact h
      · left; exact List.mem_cons_of_mem q h
    · rw [show alInsert (q :: qs) k v = q :: alInsert qs k v from by
        simp [alInsert, hq]] at h
      rcases List.mem_cons.mp h with h | h
      · left; rw [h]; exact List.mem_cons_self q qs
      · rcases ih k v p h with h2 | h2
        · left; exact List.mem_cons_of_mem q h2
        · right; exact h2

/-- Lemma: `alRemove` only drops bindings. -/
theorem alRemove_sub {β : Type} :
    ∀ (m : List (List Nat × β)) (k : List Nat) (p : List Nat × β),
    p ∈ alRemove m k → p ∈ m := by
  intro m
  induction m with
  | nil => intro k p h; simp [alRemove] at h
  | cons q qs ih =>
    intro k p h
    by_cases hq : q.1 = k
    · rw [show alRemove (q :: qs) k = qs from by simp [alRemove, hq]] at h
      exact List.mem_cons_of_mem q h
    · rw [show alRemove (q :: qs) k = q :: alRemove qs k from by
        simp [alRemove, hq]] at h
      rcases List.mem_cons.mp h with h | h
      · rw [h]; exact List.mem_cons_self q qs
      · exact List.mem_cons_of_mem q (ih k p h)

/-- Lemma: a successful `alGet` exhibits a binding of the map. -/
theorem alGet_mem {β : Type} :
    ∀ (m : List (List Nat × β)) (k : List Nat) (v : β),
    alGet m k = some v → (k, v) ∈ m := by
  intro m
  induction m with
  | nil => intro k v h; simp [alGet] at h
  | cons q qs ih =>
    intro k v h
    by_cases hq : q.1 = k
    · rw [show alGet (q :: qs) k = some q.2 from by simp [alGet, hq],
        Option.some.injEq] at h
      have : (k, v) = q := by
        rw [← hq, ← h]
      rw [this]
      exact List.mem_cons_self q qs
    · rw [show alGet (q :: qs) k = alGet qs k from by simp [alGet, hq]] at h
      exact List.mem_cons_of_mem q (ih k v h)

/-- The invariant every program-reachable LSM state satisfies: no memtable
entry and no entry of any listed SS-table carries `is_deleted = true`.
Flush only moves memtable entries (always created with a clear flag), and
the marking path never effectively rewrites a listed table (bare-name
append, see `lsmMarkGo`). -/
def lsmFlagsClear (st : LsmState) : Prop :=
  (∀ p ∈ st.map, p.2.is_deleted = false) ∧
  (∀ t ∈ st.ssTables, ∀ p ∈ t, p.2.is_deleted = false)

instance (st : LsmState) : Decidable (lsmFlagsClear st) :=
  inferInstanceAs (Decidable ((∀ p ∈ st.map, p.2.is_deleted = false) ∧
    (∀ t ∈ st.ssTables, ∀ p ∈ t, p.2.is_deleted = false)))

/-- Lemma: `handle_db_row` preserves the clear-flags invariant (it inserts
only clear-flagged leaves and flush moves such leaves to the tables). -/
theorem lsmHandleRow_flags (h1 h2 : List Nat → Nat) (st : LsmState)
    (r : Row) (off : Nat) (st2 : LsmState) (off2 : Nat)
    (h : lsmHandleRow h1 h2 st r off = some (st2, off2))
    (hc : lsmFlagsClear st) : lsmFlagsClear st2 := by
  unfold lsmHandleRow at h
  split at h
  · rw [Option.some.injEq, Prod.mk.injEq] at h
    rw [← h.1]
    exact hc
  · split at h
    · simp at h
    · rw [Option.some.injEq, Prod.mk.injEq] at h
      rw [← h.1]
      split
      · refine ⟨by simp [lsmFlush], ?_⟩
        intro t ht p hp
        rcases List.mem_append.mp ht with ht | ht
        · exact hc.2 t ht p hp
        · rw [List.mem_singleton.mp ht] at hp
          rcases alInsert_mem _ _ _ p hp with hm | he
          · exact hc.1 p hm
          · rw [he]
      · refine ⟨?_, hc.2⟩
        intro p hp
        rcases alInsert_mem _ _ _ p hp with hm | he
        · exact hc.1 p hm
        · rw [he]

/-- Lemma: the bootstrap row loop preserves the clear-flags invariant. -/
theorem lsmProcessRows_flags (h1 h2 : List Nat → Nat) :
    ∀ (rows : List Row) (st : LsmState) (off : Nat) (st2 : LsmState),
    lsmProcessRows h1 h2 rows st off = some st2 →
    lsmFlagsClear st → lsmFlagsClear st2 := by
  intro rows
  induction rows with
  | nil =>
    intro st off st2 h hc
    rw [show lsmProcessRows h1 h2 [] st off = some st from rfl,
      Option.some.injEq] at h
    rw [← h]
    exact hc
  | cons r rs ih =>
    intro st off st2 h hc
    simp only [lsmProcessRows] at h
    split at h
    · simp at h
    · next p hrow =>
      exact ih p.1 p.2 st2 h
        (lsmHandleRow_flags h1 h2 st r off p.1 p.2 hrow hc)

/-- Lemma: `LsmTree::insert` preserves the clear-flags invariant. -/
theorem lsmInsert_flags (h1 h2 : List Nat → Nat) (st : LsmState) (d : Doc)
    (st2 : LsmState) (h : lsmInsert h1 h2 st d = .ok st2)
    (hc : lsmFlagsClear st) : lsmFlagsClear st2 := by
  unfold lsmInsert at h
  split at h
  · simp at h
  · rw [Except.ok.injEq] at h
    rw [← h]
    split
    · refine ⟨by simp [lsmFlush], ?_⟩
      intro t ht p hp
      rcases List.mem_append.mp ht with ht | ht
      · exact hc.2 t ht p hp
      · rw [List.mem_singleton.mp ht] at hp
        rcases alInsert_mem _ _ _ p hp with hm | he
        · exact hc.1 p hm
        · rw [he]
    · refine ⟨?_, hc.2⟩
      intro p hp
      rcases alInsert_mem _ _ _ p hp with hm | he
      · exact hc.1 p hm
      · rw [he]

/-- Lemma: a successful run of the marking loop leaves the memtable and the
listed tables unchanged (the rewrite goes to a bare-name file) and bumps
the transaction id by exactly one. -/
theorem lsmMarkGo_ok (h1 h2 : List Nat → Nat) (st : LsmState)
    (id : List Nat) :
    ∀ (ts : List (List (List Nat × LsmLeaf))) (st2 : LsmState),
    lsmMarkGo h1 h2 st id ts = .ok st2 →
    st2.map = st.map ∧ st2.ssTables = st.ssTables ∧
    st2.txid = st.txid + 1 := by
  intro ts
  induction ts with
  | nil => intro st2 h; simp [lsmMarkGo] at h
  | cons t ts2 ih =>
    intro st2 h
    simp only [lsmMarkGo] at h
    split at h
    · exact ih st2 h
    · split at h
      · exact ih st2 h
      · split at h
        · exact ih st2 h
        · rw [Except.ok.injEq] at h
          rw [← h]
          exact ⟨rfl, rfl, rfl⟩

/-- Lemma: `LsmTree::delete` preserves the clear-flags invariant. -/
theorem lsmDelete_flags (h1 h2 : List Nat → Nat) (st : LsmState)
    (id : List Nat) (st2 : LsmState) (h : lsmDelete h1 h2 st id = .ok st2)
    (hc : lsmFlagsClear st) : lsmFlagsClear st2 := by
  unfold lsmDelete at h
  split at h
  · simp at h
  · split at h
    · split at h
      · simp at h
      · rw [Except.ok.injEq] at h
        rw [← h]
        exact ⟨fun p hp => hc.1 p (alRemove_sub _ _ p hp), hc.2⟩
    · obtain ⟨hm, hs, _⟩ := lsmMarkGo_ok h1 h2 st id st.ssTables st2 h
      exact ⟨by rw [hm]; exact hc.1, by rw [hs]; exact hc.2⟩

/-- Lemma: `LsmTree::update` preserves the clear-flags invariant. -/
theorem lsmUpdate_flags (h1 h2 : List Nat → Nat) (st : LsmState)
    (id : List Nat) (d : Doc) (st2 : LsmState)
    (h : lsmUpdate h1 h2 st id d = .ok st2)
    (hc : lsmFlagsClear st) : lsmFlagsClear st2 := by
  unfold lsmUpdate at h
  split at h
  · simp at h
  · split at h
    · split at h
      · simp at h
      · rw [Except.ok.injEq] at h
        rw [← h]
        refine ⟨?_, hc.2⟩
        intro p hp
        rcases alInsert_mem _ _ _ p hp with hm | he
        · exact hc.1 p hm
        · rw [he]
    · split at h
      · simp at h
      · next st1 hmark =>
        obtain ⟨hm, hs, _⟩ := lsmMarkGo_ok h1 h2 st id st.ssTables st1 hmark
        exact lsmInsert_flags h1 h2 st1 d st2 h
          ⟨by rw [hm]; exact hc.1, by rw [hs]; exact hc.2⟩

/-- Lemma: `search_in_files` returns the document recorded by the first
listed table containing the id. -/
theorem lsmSearchFiles_first (file : List Row) :
    ∀ (pre post : List (List (List Nat × LsmLeaf)))
    (t : List (List Nat × LsmLeaf)) (id : List Nat) (leaf : LsmLeaf),
    (∀ m ∈ pre, alGet m id = none) → alGet t id = some leaf →
    lsmSearchFiles file (pre ++ t :: post) id =
      readDocAt file leaf.offset_size := by
  intro pre
  induction pre with
  | nil =>
    intro post t id leaf _ ht
    simp [lsmSearchFiles, ht]
  | cons m ms ih =>
    intro post t id leaf hpre ht
    have hm : alGet m id = none := hpre m (by simp)
    have hms : ∀ x ∈ ms, alGet x id = none := by
      intro x hx
      exact hpre x (by simp [hx])
    simp only [List.cons_append, lsmSearchFiles, hm]
    exact ih post t id leaf hms ht

/-- Lemma: `search_in_files` reports `NotFound` when no listed table
contains the id. -/
theorem lsmSearchFiles_none (file : List Row) :
    ∀ (ts : List (List (List Nat × LsmLeaf))) (id : List Nat),
    (∀ m ∈ ts, alGet m id = none) →
    lsmSearchFiles file ts id = .error .notFound := by
  intro ts
  induction ts with
  | nil => intro id _; rfl
  | cons m ms ih =>
    intro id h
    have hm : alGet m id = none := h m (by simp)
    have hms : ∀ x ∈ ms, alGet x id = none := by
      intro x hx
      exact h x (by simp [hx])
    simp only [lsmSearchFiles, hm]
    exact ih id hms

/-- CLAIM C4: LSM `search` returns `NotFound` when the Bloom filter reports
the id absent; otherwise a memtable hit is read from its recorded range;
otherwise the flushed SS-table files are scanned in directory-listing order
and the document of the first table containing the id is returned — and on
every program-reachable state this is exactly "the first match whose entry
is not marked deleted", because no listed entry ever carries a set deleted
flag: flush writes only clear-flagged memtable leaves, and the
delete-marking path serializes its flagged copy to a bare-name file opened
in append mode, never effectively rewriting the listed table.
Consequently an entry whose deleted flag is set in a flushed file is never
returned by search (no reachable state contains one): the theorem proves
the clear-flags invariant holds after bootstrap, is preserved by every
operation, and that every document search returns on an invariant state
comes from an entry whose deleted flag is clear. -/
theorem claim_c4_lsm_search (h1 h2 : List Nat → Nat) :
    (∀ (file : List Row) (t b : Nat) (st : LsmState),
      lsmNew h1 h2 file t b = some st → lsmFlagsClear st) ∧
    (∀ (st : LsmState) (d : Doc), lsmFlagsClear st →
      ∀ (st2 : LsmState), lsmInsert h1 h2 st d = .ok st2 →
        lsmFlagsClear st2) ∧
    (∀ (st : LsmState) (id : List Nat), lsmFlagsClear st →
      ∀ (st2 : LsmState), lsmDelete h1 h2 st id = .ok st2 →
        lsmFlagsClear st2) ∧
    (∀ (st : LsmState) (id : List Nat) (d : Doc), lsmFlagsClear st →
      ∀ (st2 : LsmState), lsmUpdate h1 h2 st id d = .ok st2 →
        lsmFlagsClear st2) ∧
    (∀ (st : LsmState) (id : List Nat),
      bloomCheck h1 h2 st.bloom id = false →
      lsmSearch h1 h2 st id = .error .notFound) ∧
    (∀ (st : LsmState) (id : List Nat) (leaf : LsmLeaf), lsmFlagsClear st →
      bloomCheck h1 h2 st.bloom id = true →
      alGet st.map id = some leaf →
      lsmSearch h1 h2 st id = readDocAt st.file leaf.offset_size ∧
      leaf.is_deleted = false) ∧
    (∀ (st : LsmState) (id : List Nat)
      (pre post : List (List (List Nat × LsmLeaf)))
      (t : List (List Nat × LsmLeaf)) (leaf : LsmLeaf), lsmFlagsClear st →
      bloomCheck h1 h2 st.bloom id = true →
      alGet st.map id = none →
      st.ssTables = pre ++ t :: post →
      (∀ m ∈ pre, alGet m id = none) →
      alGet t id = some leaf →
      lsmSearch h1 h2 st id = readDocAt st.file leaf.offset_size ∧
      leaf.is_deleted = false) ∧
    (∀ (st : LsmState) (id : List Nat),
      bloomCheck h1 h2 st.bloom id = true →
      alGet st.map id = none →
      (∀ m ∈ st.ssTables, alGet m id = none) →
      lsmSearch h1 h2 st id = .error .notFound) := by
  refine ⟨?_, ?_, ?_, ?_, ?_, ?_, ?_, ?_⟩
  · intro file t b st h
    unfold lsmNew at h
    split at h
    · simp at h
    · next st1 hrows =>
      rw [Option.some.injEq] at h
      rw [← h]
      exact lsmProcessRows_flags h1 h2 file _ 0 st1 hrows
        ⟨by simp, by simp⟩
  · intro st d hc st2 h
    exact lsmInsert_flags h1 h2 st d st2 h hc
  · intro st id hc st2 h
    exact lsmDelete_flags h1 h2 st id st2 h hc
  · intro st id d hc st2 h
    exact lsmUpdate_flags h1 h2 st id d st2 h hc
  · intro st id h
    simp [lsmSearch, h]
  · intro st id leaf hc h hm
    refine ⟨by simp [lsmSearch, h, hm], ?_⟩
    exact hc.1 (id, leaf) (alGet_mem st.map id leaf hm)
  · intro st id pre post t leaf hc h hm hss hpre ht
    constructor
    · rw [show lsmSearch h1 h2 st id = lsmSearchFiles st.file st.ssTables id
        from by simp [lsmSearch, h, hm], hss]
      exact lsmSearchFiles_first st.file pre post t id leaf hpre ht
    · have htm : t ∈ st.ssTables := by
        rw [hss]
        exact List.mem_append.mpr (Or.inr (List.mem_cons_self t post))
      exact hc.2 t htm (id, leaf) (alGet_mem t id leaf ht)
  · intro st id h hm hall
    rw [show lsmSearch h1 h2 st id = lsmSearchFiles st.file st.ssTables id
      from by simp [lsmSearch, h, hm]]
    exact lsmSearchFiles_none st.file st.ssTables id hall

/-- Test fixture: an LSM state whose Bloom filter is empty. -/
def c4StA : LsmState :=
  { map := [], file := [], txid := 0, bloom := bloomNew 1, treeSize := 1,
    ssTables := [] }

/-- Test fixture: an LSM state holding id `[2]` in its memtable. -/
def c4StB : LsmState :=
  { map := [([2], { offset_size := { offset := 0, size := 82 },
                    is_deleted := false })],
    file := [mkRow 0 (encodeDoc { id := [2], value := [9] })], txid := 1,
    bloom := bloomInsert hashSum hashMix (bloomNew 1) [2], treeSize := 5,
    ssTables := [] }

/-- Test fixture: a flushed SS-table holding a clear-flagged entry for id
`[3]`, as every reachable flushed table does. -/
def c4Table : List (List Nat × LsmLeaf) :=
  [([3], { offset_size := { offset := 0, size := 82 },
           is_deleted := false })]

/-- Test fixture: an LSM state with an empty memtable and `c4Table` as its
single flushed SS-table. -/
def c4StC : LsmState :=
  { map := [], file := [mkRow 0 (encodeDoc { id := [3], value := [7] })],
    txid := 1, bloom := bloomInsert hashSum hashMix (bloomNew 1) [3],
    treeSize := 5, ssTables := [c4Table] }

/-- Witness for C4 at concrete inputs: one instance per conjunct —
bootstrap invariance, the three preservations, and the four search
branches. -/
theorem claim_c4_witness :
    (∀ (st : LsmState), lsmNew hashSum hashMix [] 1 1 = some st →
      lsmFlagsClear st) ∧
    (∀ (st2 : LsmState),
      lsmInsert hashSum hashMix c4StA { id := [0], value := [5] } =
        .ok st2 → lsmFlagsClear st2) ∧
    (∀ (st2 : LsmState),
      lsmDelete hashSum hashMix c4StB [2] = .ok st2 → lsmFlagsClear st2) ∧
    (∀ (st2 : LsmState),
      lsmUpdate hashSum hashMix c4StB [2] { id := [2], value := [6] } =
        .ok st2 → lsmFlagsClear st2) ∧
    lsmSearch hashSum hashMix c4StA [0] = .error .notFound ∧
    (lsmSearch hashSum hashMix c4StB [2] =
      readDocAt c4StB.file { offset := 0, size := 82 } ∧
      ({ offset_size := { offset := 0, size := 82 },
         is_deleted := false } : LsmLeaf).is_deleted = false) ∧
    (lsmSearch hashSum hashMix c4StC [3] =
      readDocAt c4StC.file { offset := 0, size := 82 } ∧
      ({ offset_size := { offset := 0, size := 82 },
         is_deleted := false } : LsmLeaf).is_deleted = false) ∧
    lsmSearch hashSum hashMix c4StC [9] = .error .notFound :=
  ⟨(claim_c4_lsm_search hashSum hashMix).1 [] 1 1,
   (claim_c4_lsm_search hashSum hashMix).2.1 c4StA
     { id := [0], value := [5] } (by decide),
   (claim_c4_lsm_search hashSum hashMix).2.2.1 c4StB [2] (by decide),
   (claim_c4_lsm_search hashSum hashMix).2.2.2.1 c4StB [2]
     { id := [2], value := [6] } (by decide),
   (claim_c4_lsm_search hashSum hashMix).2.2.2.2.1 c4StA [0] (by decide),
   (claim_c4_lsm_search hashSum hashMix).2.2.2.2.2.1 c4StB [2]
     { offset_size := { offset := 0, size := 82 }, is_deleted := false }
     (by decide) (by decide) (by decide),
   (claim_c4_lsm_search hashSum hashMix).2.2.2.2.2.2.1 c4StC [3] [] []
     c4Table
     { offset_size := { offset := 0, size := 82 }, is_deleted := false }
     (by decide) (by decide) (by decide) (by decide) (by simp) (by decide),
   (claim_c4_lsm_search hashSum hashMix).2.2.2.2.2.2.2 c4StC [9]
     (by decide) (by decide) (by decide)⟩

/-- The keys of an association map. -/
def alKeys {β : Type} (m : List (List Nat × β)) : List (List Nat) :=
  m.map Prod.fst

/-- The ids that the `HashMapIndex` / `BTree` bootstrap installs, in file
order: ids of rows whose `cmax` equals the sentinel (decode failures are
dropped here; a successful bootstrap decoded every such row). -/
def bootIds (file : List Row) : List (List Nat) :=
  file.filterMap (fun r =>
    if r.header.cmax = SENT then (decodeDoc r.data).map (fun d => d.id)
    else none)

/-- Number of live tuples of a file in the sense of the specification
glossary: rows whose `xmax` still holds the sentinel. -/
def liveRowCount (file : List Row) : Nat :=
  (file.filter (fun r => r.header.xmax = SENT)).length

theorem alKeys_mem_insert {β : Type} :
    ∀ (m : List (List Nat × β)) (k a : List Nat) (v : β),
    (a ∈ alKeys (alInsert m k v) ↔ a ∈ alKeys m ∨ a = k) := by
  intro m
  induction m with
  | nil => intro k a v; simp [alInsert, alKeys]
  | cons p ps ih =>
    intro k a v
    by_cases hp : p.1 = k
    · subst hp
      rw [show alInsert (p :: ps) p.1 v = (p.1, v) :: ps from by
        simp [alInsert]]
      simp only [alKeys, List.map_cons, List.mem_cons]
      tauto
    · simp only [alInsert, if_neg hp, alKeys, List.map_cons, List.mem_cons]
      rw [show (alInsert ps k v).map Prod.fst = alKeys (alInsert ps k v)
        from rfl, ih]
      simp [alKeys]
      tauto

theorem alKeys_toFinset_insert {β : Type} (m : List (List Nat × β))
    (k : List Nat) (v : β) :
    (alKeys (alInsert m k v)).toFinset = insert k (alKeys m).toFinset := by
  ext a
  simp [List.mem_toFinset, alKeys_mem_insert]
  tauto

theorem alKeys_nodup_insert {β : Type} :
    ∀ (m : List (List Nat × β)) (k : List Nat) (v : β),
    (alKeys m).Nodup → (alKeys (alInsert m k v)).Nodup := by
  intro m
  induction m with
  | nil => intro k v _; simp [alInsert, alKeys]
  | cons p ps ih =>
    intro k v hn
    simp only [alKeys, List.map_cons, List.nodup_cons] at hn
    by_cases hp : p.1 = k
    · simp only [alInsert, if_pos hp, alKeys, List.map_cons,
        List.nodup_cons]
      exact ⟨by rw [← hp]; exact hn.1, hn.2⟩
    · simp only [alInsert, if_neg hp, alKeys, List.map_cons,
        List.nodup_cons]
      constructor
      · rw [show (alInsert ps k v).map Prod.fst = alKeys (alInsert ps k v)
          from rfl, alKeys_mem_insert]
        push_neg
        exact ⟨hn.1, hp⟩
      · exact ih k v hn.2

/-- The bootstrap loop of `hashmap.rs` / `btree.rs` builds a map whose key
set is the accumulated keys joined with the ids of the remaining live-by-
`cmax` rows, keeping keys duplicate-free. -/
theorem mapIdxBootRows_keys :
    ∀ (rows : List Row) (off : Nat) (m m2 : List (List Nat × OffsetSize)),
    mapIdxBootRows rows off m = some m2 → (alKeys m).Nodup →
    (alKeys m2).toFinset = (alKeys m).toFinset ∪ (bootIds rows).toFinset ∧
    (alKeys m2).Nodup := by
  intro rows
  induction rows with
  | nil =>
    intro off m m2 h hn
    simp only [mapIdxBootRows, Option.some.injEq] at h
    rw [← h]
    simp [bootIds]
    exact hn
  | cons r rs ih =>
    intro off m m2 h hn
    simp only [mapIdxBootRows] at h
    by_cases hc : r.header.cmax ≠ SENT
    · rw [if_pos hc] at h
      have hb : bootIds (r :: rs) = bootIds rs := by
        simp only [bootIds, List.filterMap_cons]
        rw [if_neg (by intro hq; exact hc hq)]
      rw [hb]
      exact ih _ _ _ h hn
    · rw [if_neg hc] at h
      push_neg at hc
      match hd : decodeDoc r.data with
      | none => rw [hd] at h; simp at h
      | some d =>
        rw [hd] at h
        have hni := alKeys_nodup_insert m d.id
          { offset := off, size := r.header.tuple_length } hn
        obtain ⟨h1, h2⟩ := ih _ _ _ h hni
        refine ⟨?_, h2⟩
        rw [h1, alKeys_toFinset_insert]
        have hb : bootIds (r :: rs) = d.id :: bootIds rs := by
          simp [bootIds, List.filterMap_cons, hc, hd]
        rw [hb, List.toFinset_cons, Finset.insert_union,
          Finset.union_insert]

/-- Lemma: `HashMapIndex::new` / `BTree::new` initialize the transaction id to the
number of distinct ids among the rows whose `cmax` equals the sentinel. -/
theorem mapIdxNew_txid (file : List Row) (st : MapIdxState)
    (h : mapIdxNew file = some st) :
    st.txid = (bootIds file).toFinset.card := by
  unfold mapIdxNew at h
  match hb : mapIdxBootRows file 0 [] with
  | none => rw [hb] at h; simp at h
  | some m =>
    rw [hb] at h
    simp only [Option.map_some', Option.some.injEq] at h
    obtain ⟨hk, hnd⟩ := mapIdxBootRows_keys file 0 [] m hb
      (by simp [alKeys])
    have hempty : (alKeys ([] : List (List Nat × OffsetSize))).toFinset =
        (∅ : Finset (List Nat)) := by simp [alKeys]
    rw [hempty, Finset.empty_union] at hk
    have hcard : (alKeys m).toFinset.card = (alKeys m).length :=
      List.toFinset_card_of_nodup hnd
    have hlen : (alKeys m).length = m.length := by simp [alKeys]
    rw [← h]
    show m.length = (bootIds file).toFinset.card
    rw [← hk, hcard, hlen]

/-- Lemma: every success of the SS-table marking loop bumps the
transaction id by exactly one (projection form of `lsmMarkGo_ok`). -/
theorem lsmMarkGo_txid (h1 h2 : List Nat → Nat) (st : LsmState)
    (id : List Nat) (ts : List (List (List Nat × LsmLeaf))) :
    ((lsmMarkGo h1 h2 st id ts).toOption.map (fun s => s.txid)) =
    ((lsmMarkGo h1 h2 st id ts).toOption.map (fun _ => st.txid + 1)) := by
  cases hM : lsmMarkGo h1 h2 st id ts with
  | error e => rfl
  | ok s1 =>
    have htx := (lsmMarkGo_ok h1 h2 st id ts s1 hM).2.2
    simp [Except.toOption, htx]

/-- Lemma: a successful `LsmTree::insert` bumps the transaction id by
exactly one. -/
theorem lsmInsert_ok_txid (h1 h2 : List Nat → Nat) (st : LsmState)
    (d : Doc) (st2 : LsmState) (h : lsmInsert h1 h2 st d = .ok st2) :
    st2.txid = st.txid + 1 := by
  unfold lsmInsert at h
  split at h
  · simp at h
  · rw [Except.ok.injEq] at h
    rw [← h]
    dsimp only
    split <;> rfl

/-- Test fixture: the document driving the transaction-id counterexample. -/
def c8Doc : Doc := { id := [1], value := [2] }

/-- Test fixture: the file left by `insert(c8Doc)` then `delete([1])` on a
`HashMapIndex` starting from an empty file. -/
def c8File : List Row := [setXmax (mkRow 0 (encodeDoc c8Doc)) 1]

/-- CLAIM C8 counterexample: `c8File` is reachable by one insert and one
delete; it has no live tuple (`xmax = 1` on its only row), yet
`HashMapIndex::new` initializes the transaction id to 1, because the
bootstrap skip tests `cmax` (never assigned) and `transaction_id` is set to
`map.len()` — refuting "transaction id = number of live tuples recovered". -/
theorem claim_c8_counterexample :
    mapIdxInsert false { map := [], file := [], txid := 0 } c8Doc =
      .ok { map := [([1], { offset := 0, size := 82 })],
            file := [mkRow 0 (encodeDoc c8Doc)], txid := 1 } ∧
    mapIdxDelete { map := [([1], { offset := 0, size := 82 })],
                   file := [mkRow 0 (encodeDoc c8Doc)], txid := 1 } [1] =
      .ok { map := [], file := c8File, txid := 2 } ∧
    liveRowCount c8File = 0 ∧
    (mapIdxNew c8File).map (fun st => st.txid) = some 1 ∧
    ¬ ((mapIdxNew c8File).map (fun st => st.txid) =
        some (liveRowCount c8File)) := by
  refine ⟨by decide, by decide, by decide, by decide, by decide⟩

/-- CLAIM C8 as amended: after construction the transaction id equals the
number of entries in the constructed in-memory map — for `HashMapIndex` and
`BTree` the number of distinct ids among rows whose `cmax` equals the
sentinel (not the number of live tuples: tombstoned and superseded rows
still count, since only `xmax` is ever assigned), and for `LsmTree` the
number of entries remaining in the memtable after bootstrap flushes.  Each
subsequent successful mutating operation strictly increases the id: by
exactly one for every `HashMapIndex`/`BTree` operation and for `LsmTree`
insert and delete, and for `LsmTree` update by one through the memtable
path or by two through the flushed-tables path (`update_ss_table`
tombstones via the marking loop and then reinserts, bumping twice). -/
theorem claim_c8_txid_amended :
    (∀ (file : List Row) (st : MapIdxState), mapIdxNew file = some st →
      st.txid = (bootIds file).toFinset.card) ∧
    (∀ (h1 h2 : List Nat → Nat) (file : List Row) (t b : Nat),
      ((lsmNew h1 h2 file t b).map (fun st => st.txid)) =
      ((lsmNew h1 h2 file t b).map (fun st => st.map.length))) ∧
    (∀ (cd : Bool) (st : MapIdxState) (d : Doc) (st2 : MapIdxState),
      mapIdxInsert cd st d = .ok st2 → st2.txid = st.txid + 1) ∧
    (∀ (st : MapIdxState) (id : List Nat) (st2 : MapIdxState),
      mapIdxDelete st id = .ok st2 → st2.txid = st.txid + 1) ∧
    (∀ (st : MapIdxState) (id : List Nat) (d : Doc) (st2 : MapIdxState),
      mapIdxUpdate st id d = .ok st2 → st2.txid = st.txid + 1) ∧
    (∀ (h1 h2 : List Nat → Nat) (st : LsmState) (d : Doc),
      ((lsmInsert h1 h2 st d).toOption.map (fun s => s.txid)) =
      ((lsmInsert h1 h2 st d).toOption.map (fun _ => st.txid + 1))) ∧
    (∀ (h1 h2 : List Nat → Nat) (st : LsmState) (id : List Nat),
      ((lsmDelete h1 h2 st id).toOption.map (fun s => s.txid)) =
      ((lsmDelete h1 h2 st id).toOption.map (fun _ => st.txid + 1))) ∧
    (∀ (h1 h2 : List Nat → Nat) (st : LsmState) (id : List Nat) (d : Doc)
      (n : Nat),
      (lsmUpdate h1 h2 st id d).toOption.map (fun s => s.txid) = some n →
      st.txid < n ∧ (n = st.txid + 1 ∨ n = st.txid + 2)) := by
  refine ⟨mapIdxNew_txid, ?_, ?_, ?_, ?_, ?_, ?_, ?_⟩
  · intro h1 h2 file t b
    unfold lsmNew
    match lsmProcessRows h1 h2 file
        { map := [], file := file, txid := 0, bloom := bloomNew b,
          treeSize := t, ssTables := [] } 0 with
    | none => rfl
    | some st => rfl
  · intro cd st d st2 h
    unfold mapIdxInsert at h
    split at h
    · simp at h
    · rw [Except.ok.injEq] at h
      rw [← h]
  · intro st id st2 h
    unfold mapIdxDelete at h
    split at h
    · simp at h
    · split at h
      · simp at h
      · rw [Except.ok.injEq] at h
        rw [← h]
  · intro st id d st2 h
    unfold mapIdxUpdate at h
    split at h
    · simp at h
    · split at h
      · simp at h
      · rw [Except.ok.injEq] at h
        rw [← h]
  · intro h1 h2 st d
    unfold lsmInsert
    split
    · rfl
    · dsimp only
      split <;> rfl
  · intro h1 h2 st id
    unfold lsmDelete
    split
    · rfl
    · split
      · split
        · rfl
        · rfl
      · exact lsmMarkGo_txid h1 h2 st id st.ssTables
  · intro h1 h2 st id d n h
    unfold lsmUpdate at h
    split at h
    · simp [Except.toOption] at h
    · split at h
      · split at h
        · simp [Except.toOption] at h
        · simp [Except.toOption] at h
          refine ⟨by omega, Or.inl (by omega)⟩
      · split at h
        · simp [Except.toOption] at h
        · next st1 hmark =>
          have htx1 : st1.txid = st.txid + 1 :=
            (lsmMarkGo_ok h1 h2 st id st.ssTables st1 hmark).2.2
          cases hIns : lsmInsert h1 h2 st1 d with
          | error e => rw [hIns] at h; simp [Except.toOption] at h
          | ok s2 =>
            rw [hIns] at h
            simp [Except.toOption] at h
            have htx2 := lsmInsert_ok_txid h1 h2 st1 d s2 hIns
            refine ⟨by omega, Or.inr (by omega)⟩

/-- Test fixture: an LSM state holding id `[2]` in its memtable, for the
update-path conjunct of the C8 witness. -/
def c8StU : LsmState :=
  { map := [([2], { offset_size := { offset := 0, size := 82 },
                    is_deleted := false })],
    file := [mkRow 0 (encodeDoc { id := [2], value := [9] })], txid := 1,
    bloom := bloomInsert hashSum hashMix (bloomNew 4) [2], treeSize := 5,
    ssTables := [] }

/-- Witness for the amended C8 at concrete inputs: a one-live-row file for
the bootstrap equation, a concrete insert, delete and update on the map
index, each bumping the transaction id by one, and a concrete LSM update
through the memtable path. -/
theorem claim_c8_witness :
    ({ map := [([1], { offset := 0, size := 82 })],
       file := [mkRow 0 (encodeDoc c8Doc)], txid := 1 } : MapIdxState).txid =
      (bootIds [mkRow 0 (encodeDoc c8Doc)]).toFinset.card ∧
    ({ map := [([1], { offset := 0, size := 82 })],
       file := [mkRow 0 (encodeDoc c8Doc)], txid := 1 } : MapIdxState).txid =
      ({ map := [], file := [], txid := 0 } : MapIdxState).txid + 1 ∧
    ({ map := [], file := c8File, txid := 2 } : MapIdxState).txid =
      ({ map := [([1], { offset := 0, size := 82 })],
         file := [mkRow 0 (encodeDoc c8Doc)], txid := 1 } : MapIdxState).txid
        + 1 ∧
    ({ map := [([1], { offset := 82, size := 83 })],
       file := [setXmax (mkRow 0 (encodeDoc c8Doc)) 1,
                mkRow 1 (encodeDoc { id := [1], value := [3, 4] })],
       txid := 2 } : MapIdxState).txid =
      ({ map := [([1], { offset := 0, size := 82 })],
         file := [mkRow 0 (encodeDoc c8Doc)], txid := 1 } : MapIdxState).txid
        + 1 ∧
    (c8StU.txid < 2 ∧ (2 = c8StU.txid + 1 ∨ 2 = c8StU.txid + 2)) :=
  ⟨claim_c8_txid_amended.1 [mkRow 0 (encodeDoc c8Doc)]
     { map := [([1], { offset := 0, size := 82 })],
       file := [mkRow 0 (encodeDoc c8Doc)], txid := 1 } (by decide),
   claim_c8_txid_amended.2.2.1 false { map := [], file := [], txid := 0 }
     c8Doc
     { map := [([1], { offset := 0, size := 82 })],
       file := [mkRow 0 (encodeDoc c8Doc)], txid := 1 } (by decide),
   claim_c8_txid_amended.2.2.2.1
     { map := [([1], { offset := 0, size := 82 })],
       file := [mkRow 0 (encodeDoc c8Doc)], txid := 1 } [1]
     { map := [], file := c8File, txid := 2 } (by decide),
   claim_c8_txid_amended.2.2.2.2.1
     { map := [([1], { offset := 0, size := 82 })],
       file := [mkRow 0 (encodeDoc c8Doc)], txid := 1 } [1]
     { id := [1], value := [3, 4] }
     { map := [([1], { offset := 82, size := 83 })],
       file := [setXmax (mkRow 0 (encodeDoc c8Doc)) 1,
                mkRow 1 (encodeDoc { id := [1], value := [3, 4] })],
       txid := 2 } (by decide),
   claim_c8_txid_amended.2.2.2.2.2.2.2 hashSum hashMix c8StU [2]
     { id := [2], value := [8, 8] } 2 (by decide)⟩

/-- Models `KeyValue` of the RPC surface (`server.rs`): optional key and value.
The prost scalar values and their canonical `encode_to_vec` byte encodings
are external to this repository; fields are modelled directly as the
encoded byte lists, which the handler passes to the index. -/
structure KeyValue where
  key : Option (List Nat)
  value : Option (List Nat)
deriving DecidableEq, Repr

/-- Models `enum Action` of `server.rs`. -/
inductive RepAction where
  | add
  | update
  | delete
deriving DecidableEq, Repr

/-- Models `struct Replication` of `server.rs`: the record enqueued for the
replicator task. -/
structure Replication where
  action : RepAction
  key_value : KeyValue
deriving DecidableEq, Repr

/-- The RPC status codes produced by `error.rs` (`From<ServerError> for
Status`).  Note there is no `unavailable` variant: `error.rs` never builds
one. -/
inductive SrvError where
  | invalidArgument
  | alreadyExists
  | notFound
  | internal
deriving DecidableEq, Repr

/-- Models `From<anyhow::Error> for ServerError` then `From<ServerError> for
Status`: index errors map to their codes, everything else to `internal`. -/
def srvErrOf : Err → SrvError
  | .notFound => .notFound
  | .alreadyExists => .alreadyExists
  | .decodeFail => .internal
  | .ioFail => .internal

/-- State owned by `KeyValueStoreImpl`: the index behind the mutex
(instantiated, as with `index_engine = HashMap`, by the hash-map index) and
the replication channel contents, modelled as the queue of records sent so
far. -/
structure SrvState where
  idx : MapIdxState
  queue : List Replication
deriving DecidableEq, Repr

/-- Models `KeyValueStoreImpl::create` (`server.rs` lines 162-193): require
`key_value`, build the replication record, require `key` and `value`,
serialize them, call `index.insert`, map index errors to status codes, and
on success enqueue the `{Add, kv}` record and echo the pair.  The handler
receives the node's leadership flag as reported by its coordination client,
but — unlike what the specification mandates — no code path consults it:
there is no leader check anywhere in `create`. -/
def createHandler (isLeader : Bool) (st : SrvState) (req : Option KeyValue) :
    Except SrvError KeyValue × SrvState :=
  match req with
  | none => (.error .invalidArgument, st)
  | some kv =>
    let replication : Replication := { action := .add, key_value := kv }
    match kv.key with
    | none => (.error .invalidArgument, st)
    | some keyBytes =>
      match kv.value with
      | none => (.error .invalidArgument, st)
      | some valueBytes =>
        match mapIdxInsert false st.idx
            { id := keyBytes, value := valueBytes } with
        | .error e => (.error (srvErrOf e), st)
        | .ok idx2 =>
          (.ok kv, { idx := idx2, queue := st.queue ++ [replication] })

/-- One record of the replicator loop (`start_replicator`, `server.rs`
lines 66-75): re-check leadership and discard the record when not leader;
otherwise forward it to every current follower.  This is the only place in
the write path where `is_leader()` is consulted. -/
def replicateRecord (isLeader : Bool) (followers : List Nat)
    (rec : Replication) : List (Nat × Replication) :=
  if ¬ isLeader then [] else followers.map (fun f => (f, rec))

/-- Test fixture: the service state of a fresh non-leader node with an
empty HashMap index and an empty replication queue. -/
def c2StateBefore : SrvState :=
  { idx := { map := [], file := [], txid := 0 }, queue := [] }

/-- Test fixture: a valid Create request carrying key bytes `[1]` and value
bytes `[2]`. -/
def c2Request : KeyValue := { key := some [1], value := some [2] }

/-- Test fixture: the replication record built by `create` for
`c2Request`. -/
def c2Record : Replication := { action := .add, key_value := c2Request }

/-- Test fixture: the service state after the non-leader node accepted the
Create — index mutated, record enqueued. -/
def c2StateAfter : SrvState :=
  { idx := { map := [([1], { offset := 0, size := 82 })],
             file := [mkRow 0 (encodeDoc { id := [1], value := [2] })],
             txid := 1 },
    queue := [c2Record] }

/-- CLAIM C2 (code bug, evaluation at the failing input): the result of
`create` is entirely independent of the node's leadership flag — no leader
check happens before the write.  Concretely, a valid Create on a node whose
coordination client reports `is_leader() = false` succeeds, mutates the
index, and enqueues a replication record (which the replicator then
discards); nothing ever returns `unavailable`, and `error.rs` has no
`unavailable` variant at all. -/
theorem claim_c2_create_ignores_leader_flag :
    (∀ (isLeader : Bool) (st : SrvState) (req : Option KeyValue),
      createHandler isLeader st req = createHandler true st req) ∧
    createHandler false c2StateBefore (some c2Request) =
      (.ok c2Request, c2StateAfter) ∧
    replicateRecord false [7] c2Record = [] := by
  refine ⟨fun _ _ _ => rfl, by decide, by decide⟩

/-- Models `calculate_hash` of `router.rs`: feed the key bytes to a freshly
constructed hasher and return `finish()`.  The hasher itself
(`DefaultHasher`, SipHash-1-3 with fixed keys) is std-library code outside
this repository; per the specification it is "a non-cryptographic hash with
stable equality: equal key bytes must always hash to equal values within a
process", so it is modelled as an arbitrary fixed function of the bytes —
constructing it fresh per call carries no per-call state. -/
def calculate_hash (hasher : List Nat → Nat) (key : List Nat) : Nat :=
  hasher key

/-- The partition choice shared by `get_random_address` and
`get_partitioned_leader_address` (`router.rs`): `hash % address_managers.len()`
selects which partition's coordination client serves the request. -/
def selectPartition (hasher : List Nat → Nat) (partitions : Nat)
    (key : List Nat) : Nat :=
  calculate_hash hasher key % partitions

/-- CLAIM C9: two router requests carrying equal canonical key bytes within
one process (same hasher, same number of partitions) compute equal hash
values and select the same partition index. -/
theorem claim_c9_router_determinism (hasher : List Nat → Nat)
    (k1 k2 : List Nat) (n : Nat) (h : k1 = k2) :
    calculate_hash hasher k1 = calculate_hash hasher k2 ∧
    selectPartition hasher n k1 = selectPartition hasher n k2 := by
  subst h
  exact ⟨rfl, rfl⟩

/-- Witness for C9 at a concrete input: the key bytes `[1, 2]` against two
partitions. -/
theorem claim_c9_witness :
    calculate_hash hashSum [1, 2] = calculate_hash hashSum [1, 2] ∧
    selectPartition hashSum 2 [1, 2] = selectPartition hashSum 2 [1, 2] :=
  claim_c9_router_determinism hashSum [1, 2] [1, 2] 2 rfl
